import Mathlib

/-!
Shallow embedding of src/embedding-server/simple_embedding_server.py.

Modelling choices:
* Python's builtin string hash is an unknown, per-process function; every
  definition below therefore takes a parameter h : String → Nat standing for
  the hash function of one process.  (hash can be negative in Python, but the
  code only uses hash(s) % 1000, and Python's % always returns a value in
  [0, 1000); mapping into Nat and using Nat.mod gives the same residues.)
* Python floats are idealised as exact arithmetic: the raw vector lives in ℚ
  (every operation before the square root is exact rational arithmetic) and
  the normalised vector in ℝ (the square root).
* str.lower() is modelled per character, lowering ASCII letters and leaving
  all other code points unchanged; over the alphabet that matters to the
  kept-character class (Hangul syllables, ASCII letters, digits, whitespace)
  this agrees with Python.
* re \s is modelled by the six ASCII whitespace characters Python matches on
  ASCII text.
-/

namespace SimpleEmbeddingServer

/-- Characters of the Hangul syllable block 가..힣 (U+AC00..U+D7A3). -/
def isHangul (c : Char) : Bool :=
  decide (0xAC00 ≤ c.toNat ∧ c.toNat ≤ 0xD7A3)

/-- Whitespace as matched by the regex class \s on ASCII text:
space, tab, newline, carriage return, vertical tab, form feed. -/
def isPySpace (c : Char) : Bool :=
  decide (c.toNat = 32 ∨ c.toNat = 9 ∨ c.toNat = 10 ∨ c.toNat = 13 ∨
    c.toNat = 11 ∨ c.toNat = 12)

/-- Per-character model of str.lower(): lower ASCII A-Z, keep the rest. -/
def pyLowerChar (c : Char) : Char :=
  if 65 ≤ c.toNat ∧ c.toNat ≤ 90 then Char.ofNat (c.toNat + 32) else c

/-- The character class the substitution keeps: Hangul syllables, ASCII
letters, digits, whitespace. -/
def isKept (c : Char) : Bool :=
  isHangul c ||
  decide (97 ≤ c.toNat ∧ c.toNat ≤ 122) ||
  decide (65 ≤ c.toNat ∧ c.toNat ≤ 90) ||
  decide (48 ≤ c.toNat ∧ c.toNat ≤ 57) ||
  isPySpace c

/-- Characters that can appear inside a finished token: Hangul, lowercase
ASCII letters, digits. -/
def isTokenChar (c : Char) : Bool :=
  isHangul c ||
  decide (97 ≤ c.toNat ∧ c.toNat ≤ 122) ||
  decide (48 ≤ c.toNat ∧ c.toNat ≤ 57)

/-- One step of re.sub(r'[^가-힣a-zA-Z0-9\s]', ' ', text): a kept character
stays, anything else becomes a space. -/
def replaceChar (c : Char) : Char :=
  if isKept c then c else ' '

/-- re.sub(r'\s+', ' ', text): collapse every whitespace run to one space. -/
def collapseWs : List Char → List Char
  | [] => []
  | [c] => if isPySpace c then [' '] else [c]
  | c1 :: c2 :: rest =>
      if isPySpace c1 && isPySpace c2 then collapseWs (c2 :: rest)
      else (if isPySpace c1 then ' ' else c1) :: collapseWs (c2 :: rest)

/-- str.strip(): drop whitespace from both ends. -/
def pyStrip (l : List Char) : List Char :=
  ((l.dropWhile isPySpace).reverse.dropWhile isPySpace).reverse

/-- SimpleEmbeddingModel.preprocess_text: lowercase, keep only
Hangul/letters/digits/whitespace, collapse whitespace, strip. -/
def preprocess_text (s : String) : String :=
  String.mk (pyStrip (collapseWs ((s.data.map pyLowerChar).map replaceChar)))

/-- str.split() with no separator: split on whitespace runs, no empties. -/
def splitWsAux : List Char → List Char → List (List Char)
  | [], acc => if acc = [] then [] else [acc.reverse]
  | c :: cs, acc =>
      if isPySpace c then
        (if acc = [] then splitWsAux cs [] else acc.reverse :: splitWsAux cs [])
      else splitWsAux cs (c :: acc)

def splitWs (l : List Char) : List (List Char) :=
  splitWsAux l []

/-- SimpleEmbeddingModel.tokenize: preprocess, split on whitespace, keep
words of length at least 2. -/
def tokenize (s : String) : List String :=
  ((splitWs (preprocess_text s).data).filter (fun w => 2 ≤ w.length)).map
    (fun w => String.mk w)

/-- The contribution of the token at position j to dimension i:
(hash(token + str(i)) % 1000) / 1000.0 * (1.0 / (j + 1)). -/
def contribution (h : String → Nat) (i j : Nat) (token : String) : ℚ :=
  ((h (token ++ toString i) % 1000 : ℕ) : ℚ) / 1000 * (1 / ((j : ℚ) + 1))

/-- The raw (pre-normalisation) embedding vector: for each dimension i in
range(768), the enumerate-accumulated contributions divided by
max(len(tokens), 1). -/
def rawEmbedding (h : String → Nat) (tokens : List String) : List ℚ :=
  (List.range 768).map (fun i =>
    ((tokens.enum.map (fun p => contribution h i p.1 p.2)).sum) /
      ((max tokens.length 1 : ℕ) : ℚ))

/-- Sum of squares of the raw vector (the square of the Euclidean norm). -/
def normSq (l : List ℚ) : ℚ :=
  (l.map (fun x => x * x)).sum

/-- Euclidean norm of a real vector, as computed by
math.sqrt(sum(x*x for x in embedding)). -/
noncomputable def euclidNormR (l : List ℝ) : ℝ :=
  Real.sqrt ((l.map (fun x => x * x)).sum)

/-- SimpleEmbeddingModel.create_embedding: tokenize, build the raw vector,
then divide by the Euclidean norm when it is positive. -/
noncomputable def create_embedding (h : String → Nat) (text : String) :
    List ℝ :=
  let r := rawEmbedding h (tokenize text)
  let norm : ℝ := Real.sqrt ((normSq r : ℚ) : ℝ)
  if 0 < norm then r.map (fun x : ℚ => (x : ℝ) / norm)
  else r.map (fun x : ℚ => (x : ℝ))

/-- sum(a * b for a, b in zip(emb1, emb2)). -/
def dotProduct (a b : List ℝ) : ℝ :=
  (List.zipWith (fun x y => x * y) a b).sum

/-- SimpleEmbeddingModel.calculate_similarity: embed both texts, take the
dot product, clamp into [0, 1] via max(0.0, min(1.0, dot_product)). -/
noncomputable def calculate_similarity (h : String → Nat) (t1 t2 : String) :
    ℝ :=
  max 0 (min 1 (dotProduct (create_embedding h t1) (create_embedding h t2)))

/-- A parsed /embed request body; the normalize field is bound by the
handler but never used, so its type is arbitrary. -/
structure EmbedRequest (α : Type) where
  texts : List String
  normalize : α

/-- Outcome of the /embed handler: either an error response with a status
code and message, or the JSON success payload. -/
inductive EmbedResult where
  | error (status : Nat) (message : String)
  | ok (embeddings : List (List ℝ)) (model_name : String) (dimension : Nat)
      (processing_time : ℝ)

/-- EmbeddingRequestHandler.handle_embed_request: reject with 400 iff the
texts list is empty, otherwise embed every text (elapsed is the measured
wall-clock time, an input of the model). -/
noncomputable def handle_embed_request {α : Type} (h : String → Nat)
    (elapsed : ℝ) (req : EmbedRequest α) : EmbedResult :=
  if req.texts = [] then .error 400 "No texts provided"
  else
    .ok (req.texts.map (fun t => create_embedding h t))
      "simple-korean-embedding" 768 elapsed

/-- A parsed /similarity request body; absent fields default to "". -/
structure SimilarityRequest where
  text1 : String
  text2 : String

/-- Outcome of the /similarity handler. -/
inductive SimilarityResult where
  | error (status : Nat) (message : String)
  | ok (similarity : ℝ) (processing_time : ℝ)

/-- EmbeddingRequestHandler.handle_similarity_request: reject with 400 iff
either text is empty (Python falsiness of str), else return the score. -/
noncomputable def handle_similarity_request (h : String → Nat) (elapsed : ℝ)
    (req : SimilarityRequest) : SimilarityResult :=
  if req.text1 = "" ∨ req.text2 = "" then
    .error 400 "Both text1 and text2 are required"
  else .ok (calculate_similarity h req.text1 req.text2) elapsed

/-! ### Character-level lemmas -/

lemma toNat_ofNat_of_range (n : Nat) (h1 : 97 ≤ n) (h2 : n ≤ 122) :
    (Char.ofNat n).toNat = n := by
  have hv : n.isValidChar := by
    unfold Nat.isValidChar
    omega
  simp [Char.ofNat, hv, Char.ofNatAux, Char.toNat, UInt32.toNat,
    UInt32.ofNatCore]

lemma toNat_pyLowerChar (c : Char) :
    (pyLowerChar c).toNat =
      if 65 ≤ c.toNat ∧ c.toNat ≤ 90 then c.toNat + 32 else c.toNat := by
  unfold pyLowerChar
  split
  case isTrue h =>
    exact toNat_ofNat_of_range _ (by omega) (by omega)
  case isFalse h =>
    rfl

/-- Every character produced by lowercasing followed by the keep-or-space
substitution is either whitespace or a token character. -/
lemma space_or_token_replaceChar (c : Char) :
    isPySpace (replaceChar (pyLowerChar c)) = true ∨
      isTokenChar (replaceChar (pyLowerChar c)) = true := by
  unfold replaceChar
  split
  case isTrue hk =>
    have hm := toNat_pyLowerChar c
    simp only [isKept, isHangul, isPySpace, isTokenChar, Bool.or_eq_true,
      decide_eq_true_eq] at hk ⊢
    by_cases hc : 65 ≤ c.toNat ∧ c.toNat ≤ 90
    · rw [if_pos hc] at hm
      omega
    · rw [if_neg hc] at hm
      omega
  case isFalse hk =>
    left
    decide

/-- A whitespace or discarded character maps to whitespace under the
lowercase-then-substitute step. -/
lemma space_replaceChar_of_degenerate (c : Char)
    (h : isPySpace c = true ∨ isKept (pyLowerChar c) = false) :
    isPySpace (replaceChar (pyLowerChar c)) = true := by
  rcases h with h | h
  · have hm := toNat_pyLowerChar c
    have hlow : pyLowerChar c = c := by
      unfold pyLowerChar
      rw [if_neg]
      simp only [isPySpace, decide_eq_true_eq] at h
      omega
    rw [hlow]
    unfold replaceChar
    rw [if_pos]
    · exact h
    · simp only [isKept, isPySpace, Bool.or_eq_true, decide_eq_true_eq] at h ⊢
      tauto
  · unfold replaceChar
    rw [h]
    simp only [Bool.false_eq_true, if_false]
    decide

/-! ### Tokenizer list lemmas -/

lemma mem_collapseWs : ∀ (l : List Char), ∀ c ∈ collapseWs l, c = ' ' ∨ c ∈ l
  | [] => by simp [collapseWs]
  | [a] => by
      intro c hc
      unfold collapseWs at hc
      split at hc
      · simp only [List.mem_singleton] at hc
        left
        exact hc
      · simp only [List.mem_singleton] at hc
        right
        simp [hc]
  | a :: b :: rest => by
      intro c hc
      unfold collapseWs at hc
      split at hc
      · rcases mem_collapseWs (b :: rest) c hc with h | h
        · left
          exact h
        · right
          exact List.mem_cons_of_mem a h
      · rcases List.mem_cons.mp hc with h | h
        · subst h
          split
          · left
            rfl
          · right
            exact List.mem_cons_self _ _
        · rcases mem_collapseWs (b :: rest) c h with h2 | h2
          · left
            exact h2
          · right
            exact List.mem_cons_of_mem a h2

lemma collapseWs_all_space :
    ∀ (l : List Char), (∀ c ∈ l, isPySpace c = true) →
      collapseWs l = [] ∨ collapseWs l = [' ']
  | [] => fun _ => Or.inl rfl
  | [a] => by
      intro h
      unfold collapseWs
      rw [if_pos (h a (List.mem_singleton_self a))]
      right
      rfl
  | a :: b :: rest => by
      intro h
      unfold collapseWs
      have ha : isPySpace a = true := h a (List.mem_cons_self _ _)
      have hb : isPySpace b = true :=
        h b (List.mem_cons_of_mem a (List.mem_cons_self _ _))
      rw [if_pos (by rw [ha, hb]; rfl)]
      exact collapseWs_all_space (b :: rest)
        (fun c hc => h c (List.mem_cons_of_mem a hc))

lemma mem_pyStrip (l : List Char) (c : Char) (hc : c ∈ pyStrip l) : c ∈ l := by
  unfold pyStrip at hc
  rw [List.mem_reverse] at hc
  have h1 := (List.dropWhile_sublist isPySpace).mem hc
  rw [List.mem_reverse] at h1
  exact (List.dropWhile_sublist isPySpace).mem h1

lemma splitWsAux_token_chars (P : Char → Prop) :
    ∀ (l acc : List Char), (∀ c ∈ acc, P c) →
      (∀ c ∈ l, isPySpace c = true ∨ P c) →
      ∀ w ∈ splitWsAux l acc, ∀ c ∈ w, P c := by
  intro l
  induction l with
  | nil =>
    intro acc hacc _ w hw c hc
    unfold splitWsAux at hw
    split at hw
    · simp at hw
    · simp only [List.mem_singleton] at hw
      subst hw
      exact hacc c (List.mem_reverse.mp hc)
  | cons a as ih =>
    intro acc hacc hl w hw c hc
    have hl' : ∀ c ∈ as, isPySpace c = true ∨ P c :=
      fun c hc => hl c (List.mem_cons_of_mem a hc)
    unfold splitWsAux at hw
    split at hw
    · split at hw
      · exact ih [] (by simp) hl' w hw c hc
      · rcases List.mem_cons.mp hw with h | h
        · subst h
          exact hacc c (List.mem_reverse.mp hc)
        · exact ih [] (by simp) hl' w h c hc
    case isFalse hsp =>
      have hPa : P a := (hl a (List.mem_cons_self _ _)).resolve_left hsp
      refine ih (a :: acc) ?_ hl' w hw c hc
      intro d hd
      rcases List.mem_cons.mp hd with h | h
      · subst h
        exact hPa
      · exact hacc d h

/-- Every character of the preprocessed text is whitespace or a token
character. -/
lemma preprocess_chars (s : String) :
    ∀ c ∈ (preprocess_text s).data, isPySpace c = true ∨ isTokenChar c = true := by
  intro c hc
  unfold preprocess_text at hc
  have h1 : c ∈ collapseWs ((s.data.map pyLowerChar).map replaceChar) :=
    mem_pyStrip _ c hc
  rcases mem_collapseWs _ c h1 with h | h
  · subst h
    left
    decide
  · rw [List.map_map, List.mem_map] at h
    obtain ⟨d, _, hd⟩ := h
    subst hd
    exact space_or_token_replaceChar d

/-- Every token returned by tokenize consists of token characters only. -/
lemma tokenize_chars (s : String) :
    ∀ w ∈ tokenize s, ∀ c ∈ w.data, isTokenChar c = true := by
  intro w hw c hc
  unfold tokenize at hw
  rw [List.mem_map] at hw
  obtain ⟨w0, hw0, hww⟩ := hw
  rw [List.mem_filter] at hw0
  have hchars := splitWsAux_token_chars (fun c => isTokenChar c = true)
    (preprocess_text s).data [] (by simp) (preprocess_chars s) w0 hw0.1
  subst hww
  exact hchars c hc

/-- Every token returned by tokenize has length at least 2. -/
lemma tokenize_length (s : String) :
    ∀ w ∈ tokenize s, 2 ≤ w.length := by
  intro w hw
  unfold tokenize at hw
  rw [List.mem_map] at hw
  obtain ⟨w0, hw0, hww⟩ := hw
  rw [List.mem_filter] at hw0
  subst hww
  exact of_decide_eq_true hw0.2

/-- Inputs made only of whitespace and discarded characters tokenize to the
empty sequence. -/
lemma tokenize_nil_of_degenerate (s : String)
    (h : ∀ c ∈ s.data, isPySpace c = true ∨ isKept (pyLowerChar c) = false) :
    tokenize s = [] := by
  have hsp : ∀ c ∈ (s.data.map pyLowerChar).map replaceChar,
      isPySpace c = true := by
    intro c hc
    rw [List.map_map, List.mem_map] at hc
    obtain ⟨d, hd, hdc⟩ := hc
    subst hdc
    exact space_replaceChar_of_degenerate d (h d hd)
  have hpre : (preprocess_text s).data = [] := by
    unfold preprocess_text
    rcases collapseWs_all_space _ hsp with h2 | h2
    · rw [h2]
      rfl
    · rw [h2]
      decide
  unfold tokenize
  rw [hpre]
  rfl

/-! ### Embedding vector lemmas -/

lemma contribution_nonneg (h : String → Nat) (i j : Nat) (t : String) :
    0 ≤ contribution h i j t := by
  unfold contribution
  positivity

lemma rawEmbedding_length (h : String → Nat) (tokens : List String) :
    (rawEmbedding h tokens).length = 768 := by
  simp [rawEmbedding]

lemma mem_rawEmbedding_nonneg (h : String → Nat) (tokens : List String) :
    ∀ q ∈ rawEmbedding h tokens, 0 ≤ q := by
  intro q hq
  unfold rawEmbedding at hq
  rw [List.mem_map] at hq
  obtain ⟨i, _, hi⟩ := hq
  subst hi
  apply div_nonneg
  · apply List.sum_nonneg
    intro x hx
    rw [List.mem_map] at hx
    obtain ⟨p, _, hp⟩ := hx
    subst hp
    exact contribution_nonneg h i p.1 p.2
  · positivity

lemma rawEmbedding_nil (h : String → Nat) :
    rawEmbedding h [] = List.replicate 768 0 := by
  unfold rawEmbedding
  rw [List.eq_replicate_iff]
  refine ⟨by rw [List.length_map, List.length_range], ?_⟩
  intro b hb
  rw [List.mem_map] at hb
  obtain ⟨i, _, hi⟩ := hb
  subst hi
  simp

lemma rawEmbedding_const_singleton (c : Nat) (t : String) :
    rawEmbedding (fun _ => c) [t] =
      List.replicate 768 (((c % 1000 : ℕ) : ℚ) / 1000) := by
  unfold rawEmbedding
  rw [List.eq_replicate_iff]
  refine ⟨by rw [List.length_map, List.length_range], ?_⟩
  intro b hb
  rw [List.mem_map] at hb
  obtain ⟨i, _, hi⟩ := hb
  subst hi
  have henum : ([t] : List String).enum = [(0, t)] := rfl
  rw [henum, List.map_cons, List.map_nil, List.sum_cons, List.sum_nil]
  unfold contribution
  norm_num

lemma normSq_nonneg (l : List ℚ) : 0 ≤ normSq l := by
  apply List.sum_nonneg
  intro x hx
  rw [List.mem_map] at hx
  obtain ⟨y, _, hy⟩ := hx
  subst hy
  exact mul_self_nonneg y

lemma normSq_replicate (n : Nat) (q : ℚ) :
    normSq (List.replicate n q) = n * (q * q) := by
  simp [normSq, List.map_replicate, List.sum_replicate, nsmul_eq_mul]

/-- create_embedding with the square-root positivity test rewritten as
positivity of the sum of squares. -/
lemma create_embedding_eq (h : String → Nat) (t : String) :
    create_embedding h t =
      if 0 < normSq (rawEmbedding h (tokenize t)) then
        (rawEmbedding h (tokenize t)).map
          (fun x : ℚ => (x : ℝ) /
            Real.sqrt ((normSq (rawEmbedding h (tokenize t)) : ℚ) : ℝ))
      else (rawEmbedding h (tokenize t)).map (fun x : ℚ => (x : ℝ)) := by
  unfold create_embedding
  have hiff : 0 < Real.sqrt ((normSq (rawEmbedding h (tokenize t)) : ℚ) : ℝ)
      ↔ 0 < normSq (rawEmbedding h (tokenize t)) :=
    Real.sqrt_pos.trans Rat.cast_pos
  exact if_congr hiff rfl rfl

lemma create_embedding_length (h : String → Nat) (t : String) :
    (create_embedding h t).length = 768 := by
  rw [create_embedding_eq]
  split <;> rw [List.length_map, rawEmbedding_length]

lemma create_embedding_nil (h : String → Nat) (t : String)
    (ht : tokenize t = []) :
    create_embedding h t = List.replicate 768 (0 : ℝ) := by
  rw [create_embedding_eq, ht, rawEmbedding_nil]
  rw [if_neg]
  · rw [List.map_replicate]
    norm_num
  · rw [normSq_replicate]
    norm_num

lemma mem_create_embedding_nonneg (h : String → Nat) (t : String) :
    ∀ x ∈ create_embedding h t, 0 ≤ x := by
  intro x hx
  rw [create_embedding_eq] at hx
  split at hx <;>
    (rw [List.mem_map] at hx; obtain ⟨q, hq, hqx⟩ := hx; subst hqx)
  · refine div_nonneg ?_ (Real.sqrt_nonneg _)
    exact_mod_cast mem_rawEmbedding_nonneg h _ q hq
  · exact_mod_cast mem_rawEmbedding_nonneg h _ q hq

/-! ### Dot product lemmas -/

lemma dotProduct_self (l : List ℝ) :
    dotProduct l l = (l.map (fun x => x * x)).sum := by
  induction l with
  | nil => rfl
  | cons a l ih =>
    simp only [dotProduct, List.zipWith_cons_cons, List.map_cons,
      List.sum_cons] at ih ⊢
    rw [ih]

lemma dotProduct_nonneg :
    ∀ (a b : List ℝ), (∀ x ∈ a, 0 ≤ x) → (∀ x ∈ b, 0 ≤ x) →
      0 ≤ dotProduct a b
  | [], _, _, _ => by simp [dotProduct]
  | _ :: _, [], _, _ => by simp [dotProduct]
  | x :: l, y :: m, ha, hb => by
      have h1 : 0 ≤ dotProduct l m :=
        dotProduct_nonneg l m
          (fun z hz => ha z (List.mem_cons_of_mem x hz))
          (fun z hz => hb z (List.mem_cons_of_mem y hz))
      simp only [dotProduct, List.zipWith_cons_cons, List.sum_cons] at h1 ⊢
      exact add_nonneg
        (mul_nonneg (ha x (List.mem_cons_self _ _))
          (hb y (List.mem_cons_self _ _))) h1

lemma sumSq_div (l : List ℝ) (s : ℝ) :
    ((l.map (fun x => x / s)).map (fun y => y * y)).sum
      = (l.map (fun y => y * y)).sum / (s * s) := by
  induction l with
  | nil => simp
  | cons a l ih =>
    simp only [List.map_cons, List.sum_cons]
    rw [ih, div_mul_div_comm, add_div]

lemma sumSq_cast (r : List ℚ) :
    ((r.map (fun x : ℚ => (x : ℝ))).map (fun y => y * y)).sum
      = ((normSq r : ℚ) : ℝ) := by
  unfold normSq
  induction r with
  | nil => simp
  | cons a l ih =>
    simp only [List.map_cons, List.sum_cons]
    rw [ih]
    push_cast
    ring

lemma dotProduct_self_normalized (r : List ℚ) (hp : 0 < normSq r) :
    dotProduct
      (r.map (fun x : ℚ => (x : ℝ) / Real.sqrt ((normSq r : ℚ) : ℝ)))
      (r.map (fun x : ℚ => (x : ℝ) / Real.sqrt ((normSq r : ℚ) : ℝ))) = 1 := by
  have hS : (0 : ℝ) < ((normSq r : ℚ) : ℝ) := by exact_mod_cast hp
  rw [dotProduct_self]
  have hsplit : r.map
      (fun x : ℚ => (x : ℝ) / Real.sqrt ((normSq r : ℚ) : ℝ)) =
      (r.map (fun x : ℚ => (x : ℝ))).map
        (fun y => y / Real.sqrt ((normSq r : ℚ) : ℝ)) := by
    rw [List.map_map]
    rfl
  rw [hsplit, sumSq_div, sumSq_cast, Real.mul_self_sqrt hS.le,
    div_self hS.ne']

lemma euclidNormR_normalized (r : List ℚ) (hp : 0 < normSq r) :
    euclidNormR
      (r.map (fun x : ℚ => (x : ℝ) / Real.sqrt ((normSq r : ℚ) : ℝ))) = 1 := by
  have h1 := dotProduct_self_normalized r hp
  rw [dotProduct_self] at h1
  unfold euclidNormR
  rw [h1, Real.sqrt_one]

/-! ### The enumerate sum as an indexed sum -/

lemma rawEmbedding_getD (h : String → Nat) (tokens : List String) (i : Nat)
    (hi : i < 768) :
    (rawEmbedding h tokens).getD i 0 =
      (tokens.enum.map (fun p => contribution h i p.1 p.2)).sum /
        ((max tokens.length 1 : ℕ) : ℚ) := by
  unfold rawEmbedding
  rw [List.getD_eq_getElem?_getD, List.getElem?_map, List.getElem?_range hi]
  rfl

lemma enumFrom_map_sum (g : Nat → String → ℚ) :
    ∀ (l : List String) (n : Nat),
      ((List.enumFrom n l).map (fun p => g p.1 p.2)).sum =
        ∑ j in Finset.range l.length, g (n + j) (l.getD j "")
  | [], n => by simp
  | t :: l, n => by
      simp only [List.enumFrom, List.map_cons, List.sum_cons,
        List.length_cons]
      rw [enumFrom_map_sum g l (n + 1), Finset.sum_range_succ']
      have hsum : ∑ j in Finset.range l.length, g (n + 1 + j) (l.getD j "") =
          ∑ j in Finset.range l.length,
            g (n + (j + 1)) ((t :: l).getD (j + 1) "") := by
        apply Finset.sum_congr rfl
        intro j _
        have hidx : n + (j + 1) = n + 1 + j := by omega
        rw [hidx, List.getD_cons_succ]
      have hc : g (n + 0) ((t :: l).getD 0 "") = g n t := by
        rw [Nat.add_zero, List.getD_cons_zero]
      rw [hsum, hc]
      exact add_comm _ _

lemma enum_map_sum (g : Nat → String → ℚ) (l : List String) :
    (l.enum.map (fun p => g p.1 p.2)).sum =
      ∑ j in Finset.range l.length, g j (l.getD j "") := by
  have h0 := enumFrom_map_sum g l 0
  simp only [Nat.zero_add] at h0
  exact h0

/-! ### Concrete evaluation facts -/

lemma tokenize_empty : tokenize "" = [] := by decide

lemma tokenize_bang : tokenize "!" = [] := by decide

lemma tokenize_spaces : tokenize "   " = [] := by decide

lemma tokenize_ab : tokenize "ab" = ["ab"] := by decide

lemma raw_const7_ab :
    rawEmbedding (fun _ => 7) (tokenize "ab") =
      List.replicate 768 ((7 : ℚ) / 1000) := by
  rw [tokenize_ab, rawEmbedding_const_singleton]
  norm_num

lemma raw_const0_ab :
    rawEmbedding (fun _ => 0) (tokenize "ab") =
      List.replicate 768 (0 : ℚ) := by
  rw [tokenize_ab, rawEmbedding_const_singleton]
  norm_num

lemma normSq_raw_const7_ab :
    0 < normSq (rawEmbedding (fun _ => 7) (tokenize "ab")) := by
  rw [raw_const7_ab, normSq_replicate]
  norm_num

lemma euclidNormR_cast (r : List ℚ) :
    euclidNormR (r.map (fun x : ℚ => (x : ℝ))) =
      Real.sqrt ((normSq r : ℚ) : ℝ) := by
  unfold euclidNormR
  rw [sumSq_cast]

lemma dotProduct_zero_replicate :
    dotProduct (List.replicate 768 (0 : ℝ)) (List.replicate 768 (0 : ℝ)) =
      0 := by
  rw [dotProduct_self, List.map_replicate]
  norm_num

/-! ### Claims -/

/-- Claim C1: the spec requires the per-token hash to be a fixed,
seed-independent function so that embedding a Text twice, also across
process restarts, yields identical vectors.  The code instead calls
Python's builtin hash(), which is randomized per process; the embedding
therefore depends on the process hash function: two hash functions (two
process instantiations) give different vectors for the same text. -/
theorem embedding_depends_on_process_hash :
    create_embedding (fun _ => 0) "ab" ≠ create_embedding (fun _ => 7) "ab" := by
  have h0 : create_embedding (fun _ => 0) "ab" =
      List.replicate 768 (0 : ℝ) := by
    rw [create_embedding_eq, raw_const0_ab, if_neg]
    · rw [List.map_replicate]
      norm_num
    · rw [normSq_replicate]
      norm_num
  have hS : (0 : ℝ) <
      ((normSq (List.replicate 768 ((7 : ℚ) / 1000)) : ℚ) : ℝ) := by
    rw [normSq_replicate]
    norm_num
  have h7 : create_embedding (fun _ => 7) "ab" =
      List.replicate 768
        ((((7 : ℚ) / 1000 : ℚ) : ℝ) /
          Real.sqrt ((normSq (List.replicate 768 ((7 : ℚ) / 1000)) : ℚ) : ℝ)) := by
    rw [create_embedding_eq, raw_const7_ab, if_pos, List.map_replicate]
    have hp := normSq_raw_const7_ab
    rw [raw_const7_ab] at hp
    exact hp
  intro heq
  rw [h0, h7] at heq
  have hval := (List.replicate_right_inj (by norm_num)).mp heq
  have hpos : (0 : ℝ) <
      (((7 : ℚ) / 1000 : ℚ) : ℝ) /
        Real.sqrt ((normSq (List.replicate 768 ((7 : ℚ) / 1000)) : ℚ) : ℝ) := by
    apply div_pos
    · norm_num
    · exact Real.sqrt_pos.mpr hS
  rw [← hval] at hpos
  exact lt_irrefl 0 hpos

/-- Claim C2: the spec requires POST /embed to reject, with a 400-class
error "No valid texts provided", a request whose texts all trim to empty
(e.g. ["   ", ""]).  The fallback handler only rejects an empty list, so
it accepts ["   ", ""] and returns two zero vectors with a 200 payload. -/
theorem embed_accepts_whitespace_only_texts :
    handle_embed_request (fun _ => 7) 0 (EmbedRequest.mk ["   ", ""] true) =
      EmbedResult.ok [List.replicate 768 (0 : ℝ), List.replicate 768 (0 : ℝ)]
        "simple-korean-embedding" 768 0 := by
  have h1 : create_embedding (fun _ => 7) "   " =
      List.replicate 768 (0 : ℝ) :=
    create_embedding_nil _ _ tokenize_spaces
  have h2 : create_embedding (fun _ => 7) "" =
      List.replicate 768 (0 : ℝ) :=
    create_embedding_nil _ _ tokenize_empty
  unfold handle_embed_request
  rw [if_neg (by simp), List.map_cons, List.map_cons, List.map_nil, h1, h2]

/-- Claim C3: for every dimension index i < 768 the raw vector component is
the sum over token positions j of (hash(token_j ++ str(i)) mod 1000)/1000
weighted by 1/(j+1), divided by max(len(tokens), 1); the final vector
divides the raw vector componentwise by its Euclidean norm when that norm
is positive and leaves it unchanged otherwise. -/
theorem raw_component_formula (h : String → Nat) (t : String) (i : Nat)
    (hi : i < 768) :
    (rawEmbedding h (tokenize t)).getD i 0 =
      (∑ j in Finset.range (tokenize t).length,
        ((h ((tokenize t).getD j "" ++ toString i) % 1000 : ℕ) : ℚ) / 1000 *
          (1 / ((j : ℚ) + 1))) /
        ((max (tokenize t).length 1 : ℕ) : ℚ)
    ∧ create_embedding h t =
        if 0 < euclidNormR
            ((rawEmbedding h (tokenize t)).map (fun x : ℚ => (x : ℝ))) then
          (rawEmbedding h (tokenize t)).map
            (fun x : ℚ => (x : ℝ) /
              euclidNormR
                ((rawEmbedding h (tokenize t)).map (fun x : ℚ => (x : ℝ))))
        else (rawEmbedding h (tokenize t)).map (fun x : ℚ => (x : ℝ)) := by
  constructor
  · rw [rawEmbedding_getD h (tokenize t) i hi,
      enum_map_sum (fun j tok => contribution h i j tok)]
    rfl
  · rw [euclidNormR_cast]
    rfl

/-- Claim C3 witness at hash (fun _ => 7), text "ab", index 0. -/
theorem raw_component_formula_witness :
    (0 : Nat) < 768 ∧
      ((rawEmbedding (fun _ => 7) (tokenize "ab")).getD 0 0 =
        (∑ j in Finset.range (tokenize "ab").length,
          (((fun _ => 7 : String → Nat)
              ((tokenize "ab").getD j "" ++ toString 0) % 1000 : ℕ) : ℚ) /
              1000 * (1 / ((j : ℚ) + 1))) /
          ((max (tokenize "ab").length 1 : ℕ) : ℚ)
      ∧ create_embedding (fun _ => 7) "ab" =
          if 0 < euclidNormR
              ((rawEmbedding (fun _ => 7) (tokenize "ab")).map
                (fun x : ℚ => (x : ℝ))) then
            (rawEmbedding (fun _ => 7) (tokenize "ab")).map
              (fun x : ℚ => (x : ℝ) /
                euclidNormR
                  ((rawEmbedding (fun _ => 7) (tokenize "ab")).map
                    (fun x : ℚ => (x : ℝ))))
          else (rawEmbedding (fun _ => 7) (tokenize "ab")).map
            (fun x : ℚ => (x : ℝ))) :=
  ⟨by decide, raw_component_formula (fun _ => 7) "ab" 0 (by decide)⟩

/-- Claim C4: the embedding always has length 768; when the token sequence
is empty it is the zero vector; and whenever the raw vector is nonzero
(every non-degenerate hash draw) its Euclidean norm is exactly 1. -/
theorem embedding_length_and_norm (h : String → Nat) (t : String) :
    (create_embedding h t).length = 768
    ∧ (tokenize t = [] → create_embedding h t = List.replicate 768 (0 : ℝ))
    ∧ (0 < normSq (rawEmbedding h (tokenize t)) →
        euclidNormR (create_embedding h t) = 1) := by
  refine ⟨create_embedding_length h t,
    fun ht => create_embedding_nil h t ht, fun hp => ?_⟩
  rw [create_embedding_eq, if_pos hp]
  exact euclidNormR_normalized _ hp

/-- Claim C4 witness: the empty text gives the zero vector; the text "ab"
under the hash (fun _ => 7) gives a vector of norm 1. -/
theorem embedding_length_and_norm_witness :
    (tokenize "" = []
      ∧ create_embedding (fun _ => 7) "" = List.replicate 768 (0 : ℝ))
    ∧ (0 < normSq (rawEmbedding (fun _ => 7) (tokenize "ab"))
      ∧ euclidNormR (create_embedding (fun _ => 7) "ab") = 1) :=
  ⟨⟨tokenize_empty,
    (embedding_length_and_norm (fun _ => 7) "").2.1 tokenize_empty⟩,
   ⟨normSq_raw_const7_ab,
    (embedding_length_and_norm (fun _ => 7) "ab").2.2 normSq_raw_const7_ab⟩⟩

/-- Claim C5 counterexample: "!" is a non-empty Text, yet its
self-similarity is 0, not approximately 1: it tokenizes to the empty
sequence, so its embedding is the zero vector and the dot product is 0
(for every hash function; (fun _ => 7) instantiates the process hash). -/
theorem self_similarity_fails_on_nonempty_text :
    calculate_similarity (fun _ => 7) "!" "!" = 0 ∧ ("!" : String) ≠ "" := by
  constructor
  · have hz : create_embedding (fun _ => 7) "!" =
        List.replicate 768 (0 : ℝ) :=
      create_embedding_nil _ _ tokenize_bang
    unfold calculate_similarity
    rw [hz, dotProduct_zero_replicate]
    norm_num
  · decide

/-- Claim C5 (amended): self-similarity is exactly 1 for every text whose
raw embedding vector is nonzero (in particular, every text with a
non-empty token sequence under a non-degenerate hash draw). -/
theorem self_similarity_one (h : String → Nat) (t : String)
    (hp : 0 < normSq (rawEmbedding h (tokenize t))) :
    calculate_similarity h t t = 1 := by
  unfold calculate_similarity
  rw [create_embedding_eq, if_pos hp, dotProduct_self_normalized _ hp]
  norm_num

/-- Claim C5 witness: self-similarity of "ab" under hash (fun _ => 7). -/
theorem self_similarity_one_witness :
    0 < normSq (rawEmbedding (fun _ => 7) (tokenize "ab")) ∧
      calculate_similarity (fun _ => 7) "ab" "ab" = 1 :=
  ⟨normSq_raw_const7_ab,
   self_similarity_one (fun _ => 7) "ab" normSq_raw_const7_ab⟩

/-- Claim C6: every token produced by tokenize has length at least 2 and
consists only of case-folded kept characters (Hangul syllables, lowercase
ASCII letters, digits); every input made solely of whitespace and
discarded characters - in particular every empty or punctuation-only
input - yields the empty token sequence. -/
theorem tokenize_spec (t : String) :
    (∀ w ∈ tokenize t, 2 ≤ w.length ∧ ∀ c ∈ w.data, isTokenChar c = true)
    ∧ ((∀ c ∈ t.data, isPySpace c = true ∨ isKept (pyLowerChar c) = false) →
        tokenize t = []) :=
  ⟨fun w hw => ⟨tokenize_length t w hw, tokenize_chars t w hw⟩,
   tokenize_nil_of_degenerate t⟩

/-- Claim C6 witness: the token "ab" of "ab!" and the punctuation-only
input "?!". -/
theorem tokenize_spec_witness :
    (("ab" : String) ∈ tokenize "ab!"
      ∧ 2 ≤ ("ab" : String).length
      ∧ ∀ c ∈ ("ab" : String).data, isTokenChar c = true)
    ∧ ((∀ c ∈ ("?!" : String).data,
          isPySpace c = true ∨ isKept (pyLowerChar c) = false)
      ∧ tokenize "?!" = []) :=
  ⟨⟨by decide, (tokenize_spec "ab!").1 "ab" (by decide)⟩,
   ⟨by decide, (tokenize_spec "?!").2 (by decide)⟩⟩

/-- Claim C7: calculate_similarity returns the dot product of the two
embeddings clamped into [0, 1], so the similarity score always lies in
[0, 1]. -/
theorem similarity_clamped (h : String → Nat) (t1 t2 : String) :
    calculate_similarity h t1 t2 =
      max 0 (min 1
        (dotProduct (create_embedding h t1) (create_embedding h t2)))
    ∧ 0 ≤ calculate_similarity h t1 t2
    ∧ calculate_similarity h t1 t2 ≤ 1 := by
  refine ⟨rfl, le_max_left _ _, ?_⟩
  unfold calculate_similarity
  exact max_le zero_le_one (min_le_left _ _)

/-- Claim C8: the /similarity handler answers with the 400 error exactly
when text1 or text2 is empty, and otherwise returns the similarity score
together with the elapsed processing time. -/
theorem similarity_validation (h : String → Nat) (elapsed : ℝ)
    (req : SimilarityRequest) :
    (handle_similarity_request h elapsed req =
        SimilarityResult.error 400 "Both text1 and text2 are required" ↔
      req.text1 = "" ∨ req.text2 = "")
    ∧ (req.text1 ≠ "" → req.text2 ≠ "" →
        handle_similarity_request h elapsed req =
          SimilarityResult.ok
            (calculate_similarity h req.text1 req.text2) elapsed) := by
  unfold handle_similarity_request
  by_cases hc : req.text1 = "" ∨ req.text2 = ""
  · rw [if_pos hc]
    refine ⟨⟨fun _ => hc, fun _ => rfl⟩, ?_⟩
    intro h1 h2
    rcases hc with hc | hc
    · exact absurd hc h1
    · exact absurd hc h2
  · rw [if_neg hc]
    exact ⟨⟨fun he => absurd he (by simp), fun hcc => absurd hcc hc⟩,
      fun _ _ => rfl⟩

/-- Claim C8 witness at the request (text1 = "ab", text2 = "cd"). -/
theorem similarity_validation_witness :
    (("ab" : String) ≠ "" ∧ ("cd" : String) ≠ "") ∧
      handle_similarity_request (fun _ => 7) 0
          (SimilarityRequest.mk "ab" "cd") =
        SimilarityResult.ok
          (calculate_similarity (fun _ => 7) "ab" "cd") 0 :=
  ⟨⟨by decide, by decide⟩,
   (similarity_validation (fun _ => 7) 0
      (SimilarityRequest.mk "ab" "cd")).2 (by decide) (by decide)⟩

/-- Claim C9: the normalize field of an /embed request has no effect: two
requests with the same texts but arbitrary normalize values (of arbitrary
types, covering true, false, absent-defaulted, or any other JSON value)
produce identical responses. -/
theorem normalize_field_ignored {α β : Type} (h : String → Nat)
    (elapsed : ℝ) (texts : List String) (n : α) (m : β) :
    handle_embed_request h elapsed (EmbedRequest.mk texts n) =
      handle_embed_request h elapsed (EmbedRequest.mk texts m) := rfl

/-- Claim C10: every embedding component is nonnegative, hence the dot
product of two embeddings is nonnegative and the lower clamp max(0, .)
in calculate_similarity never changes the value. -/
theorem embedding_nonneg_and_clamp_trivial (h : String → Nat)
    (t t1 t2 : String) (i : Nat) :
    0 ≤ (create_embedding h t).getD i 0
    ∧ 0 ≤ dotProduct (create_embedding h t1) (create_embedding h t2)
    ∧ calculate_similarity h t1 t2 =
        min 1 (dotProduct (create_embedding h t1) (create_embedding h t2)) := by
  have hdot : 0 ≤ dotProduct (create_embedding h t1) (create_embedding h t2) :=
    dotProduct_nonneg _ _ (mem_create_embedding_nonneg h t1)
      (mem_create_embedding_nonneg h t2)
  refine ⟨?_, hdot, ?_⟩
  · rw [List.getD_eq_getElem?_getD]
    cases hx : (create_embedding h t)[i]? with
    | none => simp
    | some x =>
      simp only [Option.getD_some]
      exact mem_create_embedding_nonneg h t x (List.getElem?_mem hx)
  · unfold calculate_similarity
    exact max_eq_right (le_min zero_le_one hdot)

end SimpleEmbeddingServer
